import Mathlib

/-!
Verification development for the xbutil2 direct memory-access engine:
the topology resolver `getDDRBanks` and planner `readWriteHelper`
(XBMemAccess.cpp), and the block transfer executors `readBank` /
`OO_MemRead::execute` (OO_MemRead.cpp) and `writeBank` /
`OO_MemWrite::execute` (OO_MemWrite.cpp).

Machine integers (`unsigned long long`, `uint64_t`, sizes, addresses) are
modelled as `Nat`; all arithmetic performed by this code is addition,
guarded subtraction and `KB * 1024` conversion on device-reported values,
so wraparound is not reachable for the properties treated here.  Fallible
paths are explicit: C++ undefined behaviour (`front()` on an empty
vector) is modelled as `Option.none`.
-/

/-- Entry of the raw device memory topology (`struct mem_data`): the
`m_used` flag, whether `m_type == MEM_STREAMING`, the base address, and
the size in KB. -/
structure RawMemData where
  m_used : Bool
  m_streaming : Bool
  m_base_address : Nat
  m_size : Nat
deriving DecidableEq, Repr

/-- Raw topology buffer returned by the `mem_topology_raw` device query:
whether the raw byte buffer is empty, plus the bank records (the header
count `m_count` is the record count). -/
structure RawTopology where
  bufEmpty : Bool
  m_mem_data : List RawMemData
deriving DecidableEq, Repr

/-- `mem_bank_t` from XBMemAccess.h: base address, size in bytes, and the
index of the entry in the raw topology table. -/
structure MemBank where
  m_base_address : Nat
  m_size : Nat
  m_index : Nat
deriving DecidableEq, Repr

/-- Linux `EINVAL` errno; the helpers return `-EINVAL` on failure. -/
def EINVAL : Int := 22

/-- Comparison used to order banks, as in the `std::sort` comparator of
XBMemAccess.cpp:94-95 (ordering by base address). -/
def bankle (a b : MemBank) : Prop := a.m_base_address ≤ b.m_base_address

instance : DecidableRel bankle := fun a b => Nat.decLe _ _

instance : IsTotal MemBank bankle := ⟨fun a b => Nat.le_total _ _⟩

instance : IsTrans MemBank bankle := ⟨fun _ _ _ h h' => Nat.le_trans h h'⟩

/-- Banks accumulated by the selection loop of `getDDRBanks`
(XBMemAccess.cpp:88-92): entries with `m_used` set and kind different
from `MEM_STREAMING`, with the KB size converted to bytes. -/
def selectedBanks (data : List RawMemData) : List MemBank :=
  data.enum.filterMap fun p =>
    if p.2.m_used && !p.2.m_streaming then
      some ⟨p.2.m_base_address, p.2.m_size * 1024, p.1⟩
    else none

/-- `getDDRBanks` (XBMemAccess.cpp:78-98): on an empty buffer or a zero
`m_count` it reports the topology-unavailable error and returns
`-EINVAL`, leaving `aBanks` untouched (empty); otherwise it fills
`aBanks` with the selected entries sorted ascending by base address and
returns the raw count `m_count`. -/
def getDDRBanks (raw : RawTopology) : Int × List MemBank :=
  if raw.bufEmpty || raw.m_mem_data.length = 0 then (-EINVAL, [])
  else ((raw.m_mem_data.length : Int),
        List.insertionSort bankle (selectedBanks raw.m_mem_data))

/-- The `std::find_if` of XBMemAccess.cpp:125-126, returning the index of
the first matching bank together with that bank and the remaining
suffix; `none` models the end iterator. -/
def rwSearch (p : MemBank → Bool) : List MemBank → Option (Nat × MemBank × List MemBank)
  | [] => none
  | b :: rest =>
    if p b then some (0, b, rest)
    else (rwSearch p rest).map fun r => (r.1 + 1, r.2.1, r.2.2)

/-- Predicate of the start-bank search (XBMemAccess.cpp:126): the bank
whose half-open range holds `startAddr`. -/
def containsB (startAddr : Nat) (item : MemBank) : Bool :=
  decide (startAddr ≥ item.m_base_address) &&
    decide (startAddr < item.m_base_address + item.m_size)

/-- Propositional form of the start-bank containment test: the half-open
bank range holds the address. -/
def containsAddr (b : MemBank) (a : Nat) : Prop :=
  b.m_base_address ≤ a ∧ a < b.m_base_address + b.m_size

instance (b : MemBank) (a : Nat) : Decidable (containsAddr b a) :=
  inferInstanceAs (Decidable (_ ∧ _))

/-- Bank-count walk of XBMemAccess.cpp:151-167 for the banks after the
start bank: full bank size is available. -/
def walkCountAux : List MemBank → Nat → Nat
  | [], _ => 0
  | it :: rest, tsize =>
    if tsize ≠ 0 then
      let accesssize := if tsize > it.m_size then it.m_size else tsize
      1 + walkCountAux rest (tsize - accesssize)
    else 0

/-- Bank-count walk of XBMemAccess.cpp:148-167 starting at the start
bank, whose available size is reduced by the in-bank offset. -/
def walkCount (startAddr : Nat) : List MemBank → Nat → Nat
  | [], _ => 0
  | it :: rest, tsize =>
    if tsize ≠ 0 then
      let avail := it.m_size - (startAddr - it.m_base_address)
      let accesssize := if tsize > avail then avail else tsize
      1 + walkCountAux rest (tsize - accesssize)
    else 0

/-- Which sanity check of `readWriteHelper` fired (each prints a distinct
error message in the C++). -/
inductive RWErr where
  | topologyUnavailable
  | invalidStart
  | invalidSize
deriving DecidableEq, Repr

/-- Observable outcome of `readWriteHelper`: the returned `int`, which
check failed (if any), and the state of the four in/out reference
parameters (`aStartAddr`, `aSize`, `vec_banks`, `startbank`) when the
function returns.  `startbank` is an index into `banks`; `none` models
the end iterator (and, in the unreachable topology-unavailable branch,
the caller's uninitialised iterator). -/
structure RWOut where
  ret : Int
  err : Option RWErr
  aStartAddr : Nat
  aSize : Nat
  banks : List MemBank
  startbank : Option Nat
deriving DecidableEq, Repr

/-- Body of `readWriteHelper` from the start-bank search onward
(XBMemAccess.cpp:124-168), given the resolved start address. -/
def readWriteHelperCore (vec_banks : List MemBank) (startAddr aSize : Nat) : RWOut :=
  match rwSearch (containsB startAddr) vec_banks with
  | none => ⟨-EINVAL, some .invalidStart, startAddr, aSize, vec_banks, none⟩
  | some (i, sb, rest) =>
    -- std::accumulate from startbank to end, minus the in-bank offset
    let availableSize :=
      (sb.m_size + ((rest.map MemBank.m_size).sum)) - (startAddr - sb.m_base_address)
    if aSize > availableSize then
      ⟨-EINVAL, some .invalidSize, startAddr, aSize, vec_banks, some i⟩
    else
      let size := if aSize = 0 then availableSize else aSize
      ⟨(walkCount startAddr (sb :: rest) size : Int), none, startAddr, size,
        vec_banks, some i⟩

/-- `readWriteHelper` (XBMemAccess.cpp:111-169).  The guard
`if (!nbanks)` only fires when `getDDRBanks` returns 0, which it never
does (it returns `-EINVAL` or a positive count), so the
topology-unavailable branch is dead code.  When the start address is 0
it is replaced by `vec_banks.front().m_base_address`; on an empty bank
list that `front()` is C++ undefined behaviour, modelled as `none`. -/
def readWriteHelper (raw : RawTopology) (aStartAddr aSize : Nat) : Option RWOut :=
  let r := getDDRBanks raw
  if r.1 = 0 then
    some ⟨-EINVAL, some .topologyUnavailable, aStartAddr, aSize, r.2, none⟩
  else if aStartAddr = 0 then
    match r.2 with
    | [] => none
    | f :: _ => some (readWriteHelperCore r.2 f.m_base_address aSize)
  else
    some (readWriteHelperCore r.2 aStartAddr aSize)

/-- Per-bank sub-transfers issued by the executor loops for the banks
after the start bank (OO_MemRead.cpp:176-196, OO_MemWrite.cpp:217-237):
offset 0, length bounded by the full bank size.  Each element is
(bank, offset within the bank, length). -/
def execSlicesAux : List MemBank → Nat → List (MemBank × Nat × Nat)
  | [], _ => []
  | it :: rest, sizeBytes =>
    if sizeBytes ≠ 0 then
      let rwsize := if sizeBytes > it.m_size then it.m_size else sizeBytes
      (it, 0, rwsize) :: execSlicesAux rest (sizeBytes - rwsize)
    else []

/-- Per-bank sub-transfers issued by the executor loops starting at the
start bank: its offset is `startAddr - base` and its available size is
reduced accordingly. -/
def execSlices (startAddr : Nat) : List MemBank → Nat → List (MemBank × Nat × Nat)
  | [], _ => []
  | it :: rest, sizeBytes =>
    if sizeBytes ≠ 0 then
      let avail := it.m_size - (startAddr - it.m_base_address)
      let rwsize := if sizeBytes > avail then avail else sizeBytes
      (it, startAddr - it.m_base_address, rwsize) :: execSlicesAux rest (sizeBytes - rwsize)
    else []

/-- Total length of a list of sub-transfers. -/
def sumLens (slices : List (MemBank × Nat × Nat)) : Nat :=
  (slices.map fun s => s.2.2).sum

/-- Sub-transfer walk a caller performs from the out-parameters of
`readWriteHelper` (both executors run this same loop). -/
def bankWalkSlices (o : RWOut) : List (MemBank × Nat × Nat) :=
  match o.startbank with
  | none => []
  | some i => execSlices o.aStartAddr (o.banks.drop i) o.aSize

/-- Sub-transfers `OO_MemRead::execute` drives (OO_MemRead.cpp:162-196):
the helper failure is tested with `== -EINVAL`, so a failed sanity check
aborts before any device access. -/
def memReadGo (raw : RawTopology) (aStartAddr aSize : Nat) :
    Option (List (MemBank × Nat × Nat)) :=
  match readWriteHelper raw aStartAddr aSize with
  | none => none
  | some o => if o.ret = -EINVAL then some [] else some (bankWalkSlices o)

/-- Sub-transfers `OO_MemWrite::execute` drives (OO_MemWrite.cpp:203-237):
the helper failure is tested with `== -1`, although the helper signals
failure with `-EINVAL`. -/
def memWriteGo (raw : RawTopology) (aStartAddr aSize : Nat) :
    Option (List (MemBank × Nat × Nat)) :=
  match readWriteHelper raw aStartAddr aSize with
  | none => none
  | some o => if o.ret = -1 then some [] else some (bankWalkSlices o)

/-- Fixed chunk size of `readBank` / `writeBank` (128 KiB). -/
def blockSize : Nat := 0x20000

/-- Chunk schedule of a sub-transfer of `count` bytes at physical address
`phy`: the (address, length) pairs the per-chunk loops of
OO_MemRead.cpp:80-96 and OO_MemWrite.cpp:86-95 issue when no chunk
fails. -/
def chunkList (phy count : Nat) : List (Nat × Nat) :=
  if h : count = 0 then []
  else
    let incr := min count blockSize
    (phy, incr) :: chunkList (phy + incr) (count - incr)
termination_by count
decreasing_by
  have hc : 0 < count := Nat.pos_of_ne_zero h
  have hb : 0 < blockSize := by norm_num [blockSize]
  omega

/-- Chunk loop of `readBank` / `writeBank` against an oracle `dev` that
says whether the raw primitive (`xclUnmgdPread`/`xclUnmgdPwrite`)
succeeds for a given (address, length): returns the chunk operations
issued, whether the bank transfer succeeded, and the bytes transferred
(the loop returns `-1` on the first failing chunk and stops). -/
def runBankT (dev : Nat → Nat → Bool) (phy count : Nat) :
    List (Nat × Nat) × Bool × Nat :=
  if h : count = 0 then ([], true, 0)
  else
    let incr := min count blockSize
    if dev phy incr then
      let r := runBankT dev (phy + incr) (count - incr)
      ((phy, incr) :: r.1, r.2.1, incr + r.2.2)
    else ([(phy, incr)], false, 0)
termination_by count
decreasing_by
  have hc : 0 < count := Nat.pos_of_ne_zero h
  have hb : 0 < blockSize := by norm_num [blockSize]
  omega

/-- Executor loop over the planned sub-transfers: on a failing bank the
whole operation stops (`return` in both execute functions).  Returns the
chunk operations issued across the operation, overall success, and total
bytes transferred. -/
def runOpT (dev : Nat → Nat → Bool) : List (MemBank × Nat × Nat) →
    List (Nat × Nat) × Bool × Nat
  | [] => ([], true, 0)
  | (b, off, len) :: rest =>
    let r := runBankT dev (b.m_base_address + off) len
    if r.2.1 then
      let r2 := runOpT dev rest
      (r.1 ++ r2.1, r2.2.1, r.2.2 + r2.2.2)
    else (r.1, false, r.2.2)

/-- Effect of one successful `xclUnmgdPwrite` of `len` bytes taken from
`buf` starting at buffer offset `bufOff`, onto device memory modelled as
a map from physical address to byte. -/
def pwriteMem (mem : Nat → Nat) (buf : List Nat) (bufOff len phy : Nat) : Nat → Nat :=
  fun p => if phy ≤ p ∧ p < phy + len then buf.getD (bufOff + (p - phy)) 0 else mem p

/-- Chunk loop of `writeBank` (OO_MemWrite.cpp:86-95) on the device
memory map, with every chunk succeeding: the buffer cursor and the
physical address advance together by the chunk size. -/
def writeBankMem (mem : Nat → Nat) (buf : List Nat) (bufOff phy count : Nat) :
    Nat → Nat :=
  if h : count = 0 then mem
  else
    let incr := min count blockSize
    writeBankMem (pwriteMem mem buf bufOff incr phy) buf (bufOff + incr)
      (phy + incr) (count - incr)
termination_by count
decreasing_by
  have hc : 0 < count := Nat.pos_of_ne_zero h
  have hb : 0 < blockSize := by norm_num [blockSize]
  omega

/-- Chunk loop of `readBank` (OO_MemRead.cpp:80-96) on the device memory
map, with every chunk succeeding: each chunk is appended to the output
sink immediately. -/
def readBankMem (mem : Nat → Nat) (phy count : Nat) : List Nat :=
  if h : count = 0 then []
  else
    let incr := min count blockSize
    ((List.range incr).map fun j => mem (phy + j)) ++
      readBankMem mem (phy + incr) (count - incr)
termination_by count
decreasing_by
  have hc : 0 < count := Nat.pos_of_ne_zero h
  have hb : 0 < blockSize := by norm_num [blockSize]
  omega

/-- Bank loop of `OO_MemWrite::execute` (OO_MemWrite.cpp:216-237) on the
device memory map: each sub-transfer writes at `base + offset` and the
input-buffer cursor advances by the written size. -/
def execWriteMem (mem : Nat → Nat) (buf : List Nat) (bufOff : Nat) :
    List (MemBank × Nat × Nat) → Nat → Nat
  | [] => mem
  | (b, off, len) :: rest =>
    execWriteMem (writeBankMem mem buf bufOff (b.m_base_address + off) len)
      buf (bufOff + len) rest

/-- Bank loop of `OO_MemRead::execute` (OO_MemRead.cpp:175-196) on the
device memory map: the outputs of the per-bank reads are concatenated in
order into the destination sink. -/
def execReadMem (mem : Nat → Nat) : List (MemBank × Nat × Nat) → List Nat
  | [] => []
  | (b, off, len) :: rest =>
    readBankMem mem (b.m_base_address + off) len ++ execReadMem mem rest

/-- Whether one sub-transfer covers physical address `p`. -/
def sliceCovers (s : MemBank × Nat × Nat) (p : Nat) : Bool :=
  decide (s.1.m_base_address + s.2.1 ≤ p) &&
    decide (p < s.1.m_base_address + s.2.1 + s.2.2)

/-- Whether some sub-transfer of the list covers physical address `p`. -/
def coveredBy (slices : List (MemBank × Nat × Nat)) (p : Nat) : Bool :=
  slices.any fun s => sliceCovers s p

/-- Source of a write-memory request: either a fill byte
(`--fill` given) or the bytes of an input file. -/
structure WriteInput where
  useFill : Bool
  fillByte : Nat
  fileBytes : List Nat
deriving DecidableEq, Repr

/-- Input-buffer preparation of `OO_MemWrite::execute`
(OO_MemWrite.cpp:149-192): a fill request replicates the byte over the
requested size; a file request reads the whole file and clamps
`sizeBytes` to the file length when the file is shorter.  Returns the
buffer and the effective `sizeBytes`. -/
def prepareWriteBuffer (w : WriteInput) (sizeBytes : Nat) : List Nat × Nat :=
  if w.useFill then (List.replicate sizeBytes w.fillByte, sizeBytes)
  else (w.fileBytes,
        if w.fileBytes.length < sizeBytes then w.fileBytes.length else sizeBytes)

/-! Concrete instances used by the example-based theorems and the
witnesses. -/

/-- Topology of the worked example in the specification:
two used non-streaming 4 KB banks at 0x0 and 0x2000. -/
def rawC3Top : RawTopology := ⟨false, [⟨true, false, 0x0, 4⟩, ⟨true, false, 0x2000, 4⟩]⟩

def c3Bank0 : MemBank := ⟨0x0, 0x1000, 0⟩

def c3Bank1 : MemBank := ⟨0x2000, 0x1000, 1⟩

/-- Gapped topology: two used non-streaming 1 KB banks at 0x1000 and
0x3000, with a hole between 0x1400 and 0x3000. -/
def rawGapTop : RawTopology := ⟨false, [⟨true, false, 0x1000, 1⟩, ⟨true, false, 0x3000, 1⟩]⟩

def gapBank0 : MemBank := ⟨0x1000, 0x400, 0⟩

def gapBank1 : MemBank := ⟨0x3000, 0x400, 1⟩

/-- Device query returned an empty raw buffer. -/
def rawEmptyTop : RawTopology := ⟨true, []⟩

/-- Device query returned a buffer whose header count is zero. -/
def rawZeroTop : RawTopology := ⟨false, []⟩

/-- Topology with a streaming bank and out-of-order base addresses. -/
def rawMixTop : RawTopology :=
  ⟨false, [⟨true, false, 0x2000, 4⟩, ⟨true, true, 0x5000, 4⟩, ⟨true, false, 0x0, 4⟩]⟩

/-- Helper outcome for the gapped topology, request (0, 0): both
parameters are defaulted. -/
def oGapC5 : RWOut := ⟨2, none, 0x1000, 0x800, [gapBank0, gapBank1], some 0⟩

/-- Helper outcome for the gapped topology, request (0x1000, 0x500). -/
def oGapC10 : RWOut := ⟨2, none, 0x1000, 0x500, [gapBank0, gapBank1], some 0⟩

/-- Helper outcome for the gapped topology, request (0x1000, 0x401). -/
def oGapC9 : RWOut := ⟨2, none, 0x1000, 0x401, [gapBank0, gapBank1], some 0⟩

/-- Oracle for the raw primitive that succeeds only at physical address
0: the first 128 KiB chunk of a transfer at address 0 succeeds, the
second fails. -/
def devFailAfterFirst : Nat → Nat → Bool := fun p _ => decide (p = 0)

/-! Helper lemmas about the resolver. -/

lemma getDDRBanks_fst_ne_zero (raw : RawTopology) : (getDDRBanks raw).1 ≠ 0 := by
  unfold getDDRBanks
  split
  · norm_num [EINVAL]
  · simp only
    rename_i h
    simp only [Bool.or_eq_true, decide_eq_true_eq, not_or] at h
    exact_mod_cast h.2

lemma getDDRBanks_sorted (raw : RawTopology) :
    List.Sorted bankle (getDDRBanks raw).2 := by
  unfold getDDRBanks
  split
  · simp
  · exact List.sorted_insertionSort bankle _

lemma getDDRBanks_perm (raw : RawTopology) (h1 : raw.bufEmpty = false)
    (h2 : raw.m_mem_data ≠ []) :
    ((getDDRBanks raw).2).Perm (selectedBanks raw.m_mem_data) := by
  unfold getDDRBanks
  rw [if_neg]
  · exact List.perm_insertionSort bankle _
  · simp [h1, h2]

lemma getDDRBanks_count (raw : RawTopology) (h1 : raw.bufEmpty = false)
    (h2 : raw.m_mem_data ≠ []) :
    (getDDRBanks raw).1 = (raw.m_mem_data.length : Int) := by
  unfold getDDRBanks
  rw [if_neg]
  · simp [h1, h2]

/-! Helper lemmas about the start-bank search. -/

lemma rwSearch_eq_none {p : MemBank → Bool} :
    ∀ {l : List MemBank}, rwSearch p l = none → ∀ b ∈ l, p b = false := by
  intro l
  induction l with
  | nil => intro _ b hb; cases hb
  | cons x t ih =>
    intro h b hb
    rw [rwSearch] at h
    by_cases hx : p x
    · simp [hx] at h
    · rcases List.mem_cons.mp hb with rfl | hbt
      · exact Bool.eq_false_iff.mpr hx
      · rw [if_neg hx] at h
        rcases hr : rwSearch p t with _ | r
        · exact ih hr b hbt
        · rw [hr] at h; cases h

lemma rwSearch_spec {p : MemBank → Bool} :
    ∀ {l : List MemBank} {i : Nat} {sb : MemBank} {rest : List MemBank},
      rwSearch p l = some (i, sb, rest) →
      l.drop i = sb :: rest ∧ p sb = true ∧
        ∀ j, j < i → ∃ hl : j < l.length, p (l.get ⟨j, hl⟩) = false := by
  intro l
  induction l with
  | nil => intro i sb rest h; cases h
  | cons x t ih =>
    intro i sb rest h
    rw [rwSearch] at h
    by_cases hx : p x
    · rw [if_pos hx] at h
      simp only [Option.some.injEq, Prod.mk.injEq] at h
      obtain ⟨h1, h2, h3⟩ := h
      subst h1 h2 h3
      exact ⟨rfl, hx, fun j hj => absurd hj (Nat.not_lt_zero j)⟩
    · rw [if_neg hx] at h
      rcases hr : rwSearch p t with _ | r
      · rw [hr] at h; cases h
      · rw [hr] at h
        simp only [Option.map, Option.some.injEq, Prod.mk.injEq] at h
        obtain ⟨h1, h2, h3⟩ := h
        subst h1 h2 h3
        obtain ⟨hdrop, hp, hlt⟩ := ih hr
        refine ⟨by simpa using hdrop, hp, ?_⟩
        intro j hj
        match j with
        | 0 =>
          exact ⟨Nat.succ_pos _, Bool.eq_false_iff.mpr hx⟩
        | Nat.succ j' =>
          obtain ⟨hl, hpf⟩ := hlt j' (Nat.lt_of_succ_lt_succ hj)
          exact ⟨Nat.succ_lt_succ hl, hpf⟩

lemma rwSearch_mem {p : MemBank → Bool} {l : List MemBank} {i : Nat} {sb : MemBank}
    {rest : List MemBank} (h : rwSearch p l = some (i, sb, rest)) : sb ∈ l := by
  obtain ⟨hdrop, _, _⟩ := rwSearch_spec h
  exact (List.drop_sublist i l).mem (hdrop ▸ List.mem_cons_self sb rest)

/-! Characterization of the helper's branches. -/

lemma core_banks (banks : List MemBank) (s z : Nat) :
    (readWriteHelperCore banks s z).banks = banks := by
  unfold readWriteHelperCore
  rcases rwSearch (containsB s) banks with _ | ⟨i, sb, rest⟩
  · rfl
  · dsimp only
    split
    · rfl
    · rfl

lemma core_aStartAddr (banks : List MemBank) (s z : Nat) :
    (readWriteHelperCore banks s z).aStartAddr = s := by
  unfold readWriteHelperCore
  rcases rwSearch (containsB s) banks with _ | ⟨i, sb, rest⟩
  · rfl
  · dsimp only
    split
    · rfl
    · rfl

lemma core_invalidStart {banks : List MemBank} {s z : Nat}
    (h : rwSearch (containsB s) banks = none) :
    readWriteHelperCore banks s z = ⟨-EINVAL, some .invalidStart, s, z, banks, none⟩ := by
  unfold readWriteHelperCore
  rw [h]

lemma core_invalidSize {banks : List MemBank} {s z i : Nat} {sb : MemBank}
    {rest : List MemBank} (h : rwSearch (containsB s) banks = some (i, sb, rest))
    (hz : z > sb.m_size + (rest.map MemBank.m_size).sum - (s - sb.m_base_address)) :
    readWriteHelperCore banks s z = ⟨-EINVAL, some .invalidSize, s, z, banks, some i⟩ := by
  unfold readWriteHelperCore
  rw [h]
  dsimp only
  rw [if_pos hz]

lemma core_success {banks : List MemBank} {s z i : Nat} {sb : MemBank}
    {rest : List MemBank} (h : rwSearch (containsB s) banks = some (i, sb, rest))
    (hz : ¬ z > sb.m_size + (rest.map MemBank.m_size).sum - (s - sb.m_base_address)) :
    readWriteHelperCore banks s z =
      ⟨(walkCount s (sb :: rest)
          (if z = 0 then sb.m_size + (rest.map MemBank.m_size).sum - (s - sb.m_base_address)
           else z) : Nat), none, s,
        (if z = 0 then sb.m_size + (rest.map MemBank.m_size).sum - (s - sb.m_base_address)
         else z), banks, some i⟩ := by
  unfold readWriteHelperCore
  rw [h]
  dsimp only
  rw [if_neg hz]

lemma core_err_cases (banks : List MemBank) (s z : Nat) :
    (rwSearch (containsB s) banks = none ∧
      (readWriteHelperCore banks s z).err = some .invalidStart) ∨
    (∃ i sb rest, rwSearch (containsB s) banks = some (i, sb, rest) ∧
      z > sb.m_size + (rest.map MemBank.m_size).sum - (s - sb.m_base_address) ∧
      (readWriteHelperCore banks s z).err = some .invalidSize) ∨
    (∃ i sb rest, rwSearch (containsB s) banks = some (i, sb, rest) ∧
      ¬ z > sb.m_size + (rest.map MemBank.m_size).sum - (s - sb.m_base_address) ∧
      (readWriteHelperCore banks s z).err = none) := by
  rcases hs : rwSearch (containsB s) banks with _ | ⟨i, sb, rest⟩
  · left
    exact ⟨rfl, by rw [core_invalidStart hs]⟩
  · by_cases hz : z > sb.m_size + (rest.map MemBank.m_size).sum - (s - sb.m_base_address)
    · right; left
      exact ⟨i, sb, rest, rfl, hz, by rw [core_invalidSize hs hz]⟩
    · right; right
      exact ⟨i, sb, rest, rfl, hz, by rw [core_success hs hz]⟩

lemma rwh_some {raw : RawTopology} {s z : Nat} {o : RWOut}
    (h : readWriteHelper raw s z = some o) :
    ∃ s', o = readWriteHelperCore (getDDRBanks raw).2 s' z ∧
      ((s = 0 ∧ ∃ f t, (getDDRBanks raw).2 = f :: t ∧ s' = f.m_base_address) ∨
        (s ≠ 0 ∧ s' = s)) := by
  unfold readWriteHelper at h
  rw [if_neg (getDDRBanks_fst_ne_zero raw)] at h
  by_cases hs : s = 0
  · rw [if_pos hs] at h
    rcases hb : (getDDRBanks raw).2 with _ | ⟨f, t⟩
    · rw [hb] at h; cases h
    · rw [hb] at h
      injection h with h
      exact ⟨f.m_base_address, h.symm, Or.inl ⟨hs, f, t, rfl, rfl⟩⟩
  · rw [if_neg hs] at h
    injection h with h
    exact ⟨s, h.symm, Or.inr ⟨hs, rfl⟩⟩

lemma containsB_iff {s : Nat} {b : MemBank} : containsB s b = true ↔ containsAddr b s := by
  simp [containsB, containsAddr, Bool.and_eq_true, decide_eq_true_eq, ge_iff_le]

lemma mem_selectedBanks {data : List RawMemData} {b : MemBank} :
    b ∈ selectedBanks data ↔
      ∃ h : b.m_index < data.length,
        (data.get ⟨b.m_index, h⟩).m_used = true ∧
        (data.get ⟨b.m_index, h⟩).m_streaming = false ∧
        b.m_base_address = (data.get ⟨b.m_index, h⟩).m_base_address ∧
        b.m_size = (data.get ⟨b.m_index, h⟩).m_size * 1024 := by
  simp only [List.get_eq_getElem]
  unfold selectedBanks
  rw [List.mem_filterMap]
  constructor
  · rintro ⟨⟨i, e⟩, hmem, hfe⟩
    rw [List.mk_mem_enum_iff_getElem?] at hmem
    obtain ⟨hlt, hget⟩ := List.getElem?_eq_some_iff.mp hmem
    by_cases hc : ((i, e).2.m_used && !(i, e).2.m_streaming) = true
    · rw [if_pos hc] at hfe
      rw [Option.some.injEq] at hfe
      subst hfe
      simp only [Bool.and_eq_true, Bool.not_eq_true'] at hc
      refine ⟨by simpa using hlt, ?_, ?_, ?_, ?_⟩ <;>
        simp [hget, hc.1, hc.2]
    · rw [if_neg hc] at hfe
      cases hfe
  · rintro ⟨h, hu, hs, hba, hsz⟩
    refine ⟨(b.m_index, data[b.m_index]), ?_, ?_⟩
    · rw [List.mk_mem_enum_iff_getElem?]
      simp [List.getElem?_eq_getElem h]
    · have hcond : ((b.m_index, data[b.m_index]).2.m_used &&
          !(b.m_index, data[b.m_index]).2.m_streaming) = true := by
        simp [hu, hs]
      rw [if_pos hcond, Option.some.injEq]
      rcases b with ⟨ba, bs, bi⟩
      dsimp only at h hu hs hba hsz ⊢
      simp [hba, hsz]

/-- Claim C6: for every raw memory topology (nonempty, nonzero count),
the resolver `getDDRBanks` selects exactly the entries with
`m_used == true` and kind different from `MEM_STREAMING`, converts each
selected size from KB to bytes (`raw size * 1024`), returns the bank
list sorted ascending by base address, and returns the raw entry count
of the topology header rather than the filtered count. -/
theorem claim_C6 (raw : RawTopology) (h1 : raw.bufEmpty = false)
    (h2 : raw.m_mem_data ≠ []) :
    (getDDRBanks raw).1 = (raw.m_mem_data.length : Int) ∧
    List.Sorted bankle (getDDRBanks raw).2 ∧
    ((getDDRBanks raw).2).Perm (selectedBanks raw.m_mem_data) ∧
    ∀ b : MemBank, b ∈ (getDDRBanks raw).2 ↔
      ∃ h : b.m_index < raw.m_mem_data.length,
        (raw.m_mem_data.get ⟨b.m_index, h⟩).m_used = true ∧
        (raw.m_mem_data.get ⟨b.m_index, h⟩).m_streaming = false ∧
        b.m_base_address = (raw.m_mem_data.get ⟨b.m_index, h⟩).m_base_address ∧
        b.m_size = (raw.m_mem_data.get ⟨b.m_index, h⟩).m_size * 1024 := by
  refine ⟨getDDRBanks_count raw h1 h2, getDDRBanks_sorted raw,
    getDDRBanks_perm raw h1 h2, ?_⟩
  intro b
  rw [(getDDRBanks_perm raw h1 h2).mem_iff]
  exact mem_selectedBanks

/-- Witness for C6 on a concrete topology with three raw entries, one of
them streaming and the bases out of order: the raw count 3 is returned
(not the filtered count 2) and the output is sorted. -/
theorem claim_C6_witness :
    (getDDRBanks rawMixTop).1 = (rawMixTop.m_mem_data.length : Int) ∧
    List.Sorted bankle (getDDRBanks rawMixTop).2 ∧
    ((getDDRBanks rawMixTop).2).Perm (selectedBanks rawMixTop.m_mem_data) ∧
    (getDDRBanks rawMixTop).1 = (3 : Int) ∧
    (getDDRBanks rawMixTop).2 = [⟨0x0, 0x1000, 2⟩, ⟨0x2000, 0x1000, 0⟩] := by
  have h := claim_C6 rawMixTop rfl (by decide)
  exact ⟨h.1, h.2.1, h.2.2.1, by decide, by decide⟩

/-- Claim C2 (code bug): the resolver signals an empty or zero-count
topology by returning `-EINVAL`, which is nonzero, so the guard
`if (!nbanks)` in `readWriteHelper` never fires.  Instead of propagating
the topology error and stopping, the helper performs the address
defaulting and the start-bank lookup over the empty bank list: with a
nonzero start address it fails through the invalid-start (InvalidRange)
check, and with a zero start address it dereferences `front()` of the
empty vector (undefined behaviour, modelled as `none`).  Identical
behaviour for the zero-count topology. -/
theorem claim_C2_behavior :
    (getDDRBanks rawEmptyTop).1 = -EINVAL ∧
    (getDDRBanks rawEmptyTop).1 ≠ 0 ∧
    readWriteHelper rawEmptyTop 0x100 0x10 =
      some ⟨-EINVAL, some RWErr.invalidStart, 0x100, 0x10, [], none⟩ ∧
    readWriteHelper rawEmptyTop 0 0x10 = none ∧
    (getDDRBanks rawZeroTop).1 = -EINVAL ∧
    readWriteHelper rawZeroTop 0x100 0x10 =
      some ⟨-EINVAL, some RWErr.invalidStart, 0x100, 0x10, [], none⟩ ∧
    readWriteHelper rawZeroTop 0 0x10 = none := by
  decide

/-- Claim C1 (code bug): for a write request whose size exceeds the
available capacity from a valid start, `readWriteHelper` does report
InvalidRange (returns `-EINVAL` with the invalid-size check firing), but
`OO_MemWrite::execute` compares the helper result against `-1` instead
of `-EINVAL`, so the write is not aborted: the bank walk runs with the
unclamped size and issues raw writes covering both banks (0x400 bytes
each), while the read path, which compares against `-EINVAL`, correctly
aborts with no device access. -/
theorem claim_C1_behavior :
    readWriteHelper rawGapTop 0x1000 0x10000 =
      some ⟨-EINVAL, some RWErr.invalidSize, 0x1000, 0x10000,
        [gapBank0, gapBank1], some 0⟩ ∧
    memWriteGo rawGapTop 0x1000 0x10000 =
      some [(gapBank0, 0, 0x400), (gapBank1, 0, 0x400)] ∧
    (runOpT (fun _ _ => true) [(gapBank0, 0, 0x400), (gapBank1, 0, 0x400)]).1 =
      [(0x1000, 0x400), (0x3000, 0x400)] ∧
    memReadGo rawGapTop 0x1000 0x10000 = some [] := by
  refine ⟨by decide, by decide, ?_, by decide⟩
  show (runOpT (fun _ _ => true) [(gapBank0, 0, 0x400), (gapBank1, 0, 0x400)]).1 =
    [(0x1000, 0x400), (0x3000, 0x400)]
  rw [runOpT, runOpT, runOpT]
  rw [runBankT.eq_def]
  norm_num [gapBank0, gapBank1, blockSize]
  rw [runBankT.eq_def]
  norm_num
  rw [runBankT.eq_def]
  norm_num [blockSize]
  rw [runBankT.eq_def]
  norm_num

lemma drop_eq_cons_get {l : List MemBank} {i : Nat} {sb : MemBank}
    {rest : List MemBank} (h : l.drop i = sb :: rest) :
    ∃ hi : i < l.length, l.get ⟨i, hi⟩ = sb := by
  have hlen : i < l.length := by
    by_contra hge
    rw [List.drop_eq_nil_of_le (Nat.le_of_not_lt hge)] at h
    cases h
  refine ⟨hlen, ?_⟩
  rw [List.drop_eq_getElem_cons hlen] at h
  obtain ⟨h1, h2⟩ := List.cons_eq_cons.mp h
  simpa [List.get_eq_getElem] using h1

/-- Claim C4: for every resolved topology and (possibly defaulted) start
address, `readWriteHelper` selects as start bank the first bank in
ascending-address order (the bank list is sorted, so the least index)
whose half-open range contains the start address, and when no bank
contains it — in particular for a start in a gap between banks or past
the last bank — it fails with the InvalidRange error `-EINVAL` through
the invalid-start check, leaving the start-bank iterator at end. -/
theorem claim_C4 (raw : RawTopology) (s z : Nat) (o : RWOut)
    (h : readWriteHelper raw s z = some o) :
    List.Sorted bankle o.banks ∧
    (∀ i, o.startbank = some i →
      ∃ hi : i < o.banks.length,
        containsAddr (o.banks.get ⟨i, hi⟩) o.aStartAddr ∧
        ∀ j, j < i → ∃ hjl : j < o.banks.length,
          ¬ containsAddr (o.banks.get ⟨j, hjl⟩) o.aStartAddr) ∧
    ((∀ b ∈ o.banks, ¬ containsAddr b o.aStartAddr) →
      o.ret = -EINVAL ∧ o.startbank = none ∧ o.err = some RWErr.invalidStart) := by
  obtain ⟨s', ho, _⟩ := rwh_some h
  have hbanks : o.banks = (getDDRBanks raw).2 := by rw [ho, core_banks]
  have haddr : o.aStartAddr = s' := by rw [ho, core_aStartAddr]
  refine ⟨hbanks ▸ getDDRBanks_sorted raw, ?_, ?_⟩
  · intro i hsi
    rcases hs : rwSearch (containsB s') (getDDRBanks raw).2 with _ | ⟨i', sb, rest⟩
    · rw [ho, core_invalidStart hs] at hsi
      cases hsi
    · obtain ⟨hdrop, hpsb, hearlier⟩ := rwSearch_spec hs
      have hii : i = i' := by
        by_cases hz : z > sb.m_size + (rest.map MemBank.m_size).sum -
            (s' - sb.m_base_address)
        · rw [ho, core_invalidSize hs hz] at hsi
          injection hsi with hsi
          exact hsi.symm
        · rw [ho, core_success hs hz] at hsi
          injection hsi with hsi
          exact hsi.symm
      subst hii
      obtain ⟨hi, hgi⟩ := drop_eq_cons_get hdrop
      rw [hbanks, haddr]
      refine ⟨hi, by rw [hgi]; exact containsB_iff.mp hpsb, ?_⟩
      intro j hj
      obtain ⟨hjl, hjf⟩ := hearlier j hj
      refine ⟨hjl, fun hca => ?_⟩
      rw [← containsB_iff] at hca
      rw [hjf] at hca
      cases hca
  · intro hnone
    rcases hs : rwSearch (containsB s') (getDDRBanks raw).2 with _ | ⟨i', sb, rest⟩
    · rw [ho, core_invalidStart hs]
      exact ⟨rfl, rfl, rfl⟩
    · exfalso
      have hsb : sb ∈ o.banks := hbanks ▸ rwSearch_mem hs
      have := hnone sb hsb
      rw [haddr] at this
      exact this (containsB_iff.mp (rwSearch_spec hs).2.1)

/-- Witness for C4: on the gapped topology a start address of 0x1800
lies strictly between the two banks, no bank contains it, and the
helper fails with `-EINVAL` through the invalid-start check. -/
theorem claim_C4_witness :
    (⟨-EINVAL, some RWErr.invalidStart, 0x1800, 4, [gapBank0, gapBank1],
        none⟩ : RWOut).ret = -EINVAL ∧
    (⟨-EINVAL, some RWErr.invalidStart, 0x1800, 4, [gapBank0, gapBank1],
        none⟩ : RWOut).startbank = none ∧
    (⟨-EINVAL, some RWErr.invalidStart, 0x1800, 4, [gapBank0, gapBank1],
        none⟩ : RWOut).err = some RWErr.invalidStart :=
  (claim_C4 rawGapTop 0x1800 4 _ (by decide)).2.2 (by decide)

/-- Claim C5: a requested start address of 0 is substituted with the
lowest bank's base address, and a requested size of 0 is substituted
with the full available capacity from the resolved start through the
last bank (sum of the sizes from the start bank to the end minus the
in-bank offset of the start); the in/out parameters are mutated to the
resolved values, which is what the `RWOut` record the caller reads back
captures. -/
theorem claim_C5 :
    (∀ raw z o, readWriteHelper raw 0 z = some o →
      ∃ f t, o.banks = f :: t ∧ o.aStartAddr = f.m_base_address ∧
        ∀ b ∈ o.banks, f.m_base_address ≤ b.m_base_address) ∧
    (∀ raw s z o i sb rest, readWriteHelper raw s z = some o → z = 0 →
      o.err = none → o.startbank = some i → o.banks.drop i = sb :: rest →
      o.aSize = sb.m_size + (rest.map MemBank.m_size).sum -
        (o.aStartAddr - sb.m_base_address)) := by
  constructor
  · intro raw z o h
    obtain ⟨s', ho, hcase⟩ := rwh_some h
    rcases hcase with ⟨_, f, t, hb, hs'⟩ | ⟨hne, _⟩
    · refine ⟨f, t, ?_, ?_, ?_⟩
      · rw [ho, core_banks, hb]
      · rw [ho, core_aStartAddr, hs']
      · intro b hbmem
        rw [ho, core_banks] at hbmem
        have hsorted := getDDRBanks_sorted raw
        rw [hb] at hsorted hbmem
        rcases List.mem_cons.mp hbmem with rfl | hbt
        · exact Nat.le_refl _
        · exact (List.sorted_cons.mp hsorted).1 b hbt
    · exact absurd rfl hne
  · intro raw s z o i sb rest h hz0 herr hsb hdrop
    obtain ⟨s', ho, _⟩ := rwh_some h
    rcases core_err_cases (getDDRBanks raw).2 s' z with ⟨_, he⟩ | ⟨i', sb', rest', _, _, he⟩ |
      ⟨i', sb', rest', hsea, hle, _⟩
    · rw [ho] at herr
      rw [herr] at he
      cases he
    · rw [ho] at herr
      rw [herr] at he
      cases he
    · have hoeq := core_success hsea hle
      rw [ho, hoeq] at hsb hdrop ⊢
      dsimp only at hsb hdrop ⊢
      injection hsb with hsb
      subst hsb
      obtain ⟨hdrop', _, _⟩ := rwSearch_spec hsea
      rw [hdrop'] at hdrop
      obtain ⟨h1, h2⟩ := List.cons_eq_cons.mp hdrop
      subst h1 h2
      rw [if_pos hz0]

/-- Witness for C5: request (0, 0) on the gapped topology resolves the
start to the lowest base address 0x1000 and the size to the full
capacity 0x800. -/
theorem claim_C5_witness :
    (∃ f t, oGapC5.banks = f :: t ∧ oGapC5.aStartAddr = f.m_base_address ∧
      ∀ b ∈ oGapC5.banks, f.m_base_address ≤ b.m_base_address) ∧
    oGapC5.aSize = gapBank0.m_size + ([gapBank1].map MemBank.m_size).sum -
      (oGapC5.aStartAddr - gapBank0.m_base_address) := by
  refine ⟨claim_C5.1 rawGapTop 0 oGapC5 (by decide), ?_⟩
  exact claim_C5.2 rawGapTop 0 0 oGapC5 0 gapBank0 [gapBank1] (by decide) rfl
    (by decide) (by decide) (by decide)

lemma ite_gt_min (n a : Nat) : (if n > a then a else n) = min n a := by
  split_ifs <;> omega

/-- Claim C3: on the topology with banks (base 0x0, size 0x1000) and
(base 0x2000, size 0x1000), the request (start 0x0, size 0x1800) plans a
span of exactly 2 banks and the executor walk yields exactly the
sub-transfers (bank 0, offset 0, length 0x1000) then (bank 1, offset 0,
length 0x800); in general the first bank's sub-transfer has offset
`start - base` and length `min remaining (size - offset)`, and every
subsequent bank has offset 0 and length `min remaining size`. -/
theorem claim_C3 :
    readWriteHelper rawC3Top 0 0x1800 =
      some ⟨2, none, 0, 0x1800, [c3Bank0, c3Bank1], some 0⟩ ∧
    bankWalkSlices ⟨2, none, 0, 0x1800, [c3Bank0, c3Bank1], some 0⟩ =
      [(c3Bank0, 0, 0x1000), (c3Bank1, 0, 0x800)] ∧
    (∀ s b rest n, n ≠ 0 →
      execSlices s (b :: rest) n =
        (b, s - b.m_base_address,
          min n (b.m_size - (s - b.m_base_address))) ::
          execSlicesAux rest (n - min n (b.m_size - (s - b.m_base_address)))) ∧
    (∀ b rest n, n ≠ 0 →
      execSlicesAux (b :: rest) n =
        (b, 0, min n b.m_size) :: execSlicesAux rest (n - min n b.m_size)) ∧
    (∀ banks n x, x ∈ execSlicesAux banks n → x.2.1 = 0) := by
  refine ⟨by decide, by decide, ?_, ?_, ?_⟩
  · intro s b rest n hn
    simp only [execSlices]
    rw [if_pos hn, ite_gt_min]
  · intro b rest n hn
    simp only [execSlicesAux]
    rw [if_pos hn, ite_gt_min]
  · intro banks
    induction banks with
    | nil =>
      intro n x hx
      simp [execSlicesAux] at hx
    | cons b t ih =>
      intro n x hx
      by_cases hn : n = 0
      · simp [execSlicesAux, hn] at hx
      · rw [execSlicesAux, if_pos hn] at hx
        rcases List.mem_cons.mp hx with rfl | hxt
        · rfl
        · exact ih _ x hxt

/-- Witness for C3: an instance of the general subsequent-bank formula
at the second bank of the example topology with 0x800 bytes left. -/
theorem claim_C3_witness :
    execSlices 0x2000 [c3Bank1] 0x800 =
      (c3Bank1, 0x2000 - c3Bank1.m_base_address,
        min 0x800 (c3Bank1.m_size - (0x2000 - c3Bank1.m_base_address))) ::
        execSlicesAux []
          (0x800 - min 0x800 (c3Bank1.m_size - (0x2000 - c3Bank1.m_base_address))) :=
  claim_C3.2.2.1 0x2000 c3Bank1 [] 0x800 (by decide)

lemma sumLens_cons (x : MemBank × Nat × Nat) (l : List (MemBank × Nat × Nat)) :
    sumLens (x :: l) = x.2.2 + sumLens l := by
  simp [sumLens]

lemma execSlicesAux_sumLens : ∀ (banks : List MemBank) (n : Nat),
    n ≤ (banks.map MemBank.m_size).sum → sumLens (execSlicesAux banks n) = n := by
  intro banks
  induction banks with
  | nil =>
    intro n h
    simp only [List.map_nil, List.sum_nil, Nat.le_zero] at h
    subst h
    rfl
  | cons b t ih =>
    intro n h
    simp only [List.map_cons, List.sum_cons] at h
    by_cases hn : n = 0
    · simp [execSlicesAux, hn, sumLens]
    · simp only [execSlicesAux]
      rw [if_pos hn, ite_gt_min, sumLens_cons]
      dsimp only
      rw [ih _ (by omega)]
      omega

lemma execSlices_sumLens (s : Nat) (b : MemBank) (rest : List MemBank) (n : Nat)
    (h : n ≤ (b.m_size - (s - b.m_base_address)) + (rest.map MemBank.m_size).sum) :
    sumLens (execSlices s (b :: rest) n) = n := by
  by_cases hn : n = 0
  · simp [execSlices, hn, sumLens]
  · simp only [execSlices]
    rw [if_pos hn, ite_gt_min, sumLens_cons]
    dsimp only
    rw [execSlicesAux_sumLens _ _ (by omega)]
    omega

lemma walkCountAux_eq_length : ∀ (banks : List MemBank) (n : Nat),
    walkCountAux banks n = (execSlicesAux banks n).length := by
  intro banks
  induction banks with
  | nil => intro n; rfl
  | cons b t ih =>
    intro n
    by_cases hn : n = 0
    · simp [walkCountAux, execSlicesAux, hn]
    · simp only [walkCountAux, execSlicesAux]
      rw [if_pos hn, if_pos hn]
      simp [ih]
      omega

lemma walkCount_eq_length (s : Nat) (banks : List MemBank) (n : Nat) :
    walkCount s banks n = (execSlices s banks n).length := by
  cases banks with
  | nil => rfl
  | cons b t =>
    by_cases hn : n = 0
    · simp [walkCount, execSlices, hn]
    · simp only [walkCount, execSlices]
      rw [if_pos hn, if_pos hn]
      simp [walkCountAux_eq_length]
      omega

/-- Claim C10: for every request `readWriteHelper` accepts (no sanity
check fails, so the resolved size is within the capacity from the start
bank onward), the executor bank walk stops with zero bytes remaining at
or before the end of the bank list: the per-bank sub-transfer lengths
sum to exactly the resolved size, and the number of banks walked equals
the straddle count the helper returned. -/
theorem claim_C10 (raw : RawTopology) (A N : Nat) (o : RWOut)
    (h : readWriteHelper raw A N = some o) (herr : o.err = none) :
    sumLens (bankWalkSlices o) = o.aSize ∧
    ((bankWalkSlices o).length : Int) = o.ret := by
  obtain ⟨s', ho, _⟩ := rwh_some h
  rcases core_err_cases (getDDRBanks raw).2 s' N with ⟨_, he⟩ |
    ⟨_, _, _, _, _, he⟩ | ⟨i, sb, rest, hsea, hle, _⟩
  · rw [ho] at herr
    rw [herr] at he
    cases he
  · rw [ho] at herr
    rw [herr] at he
    cases he
  · have hoeq := core_success hsea hle
    rw [ho, hoeq]
    obtain ⟨hdrop, hpsb, _⟩ := rwSearch_spec hsea
    obtain ⟨hc1, hc2⟩ := containsB_iff.mp hpsb
    simp only [bankWalkSlices]
    rw [hdrop]
    have hszle : (if N = 0 then
          sb.m_size + (rest.map MemBank.m_size).sum - (s' - sb.m_base_address)
        else N) ≤
        (sb.m_size - (s' - sb.m_base_address)) + (rest.map MemBank.m_size).sum := by
      split_ifs <;> omega
    refine ⟨execSlices_sumLens s' sb rest _ hszle, ?_⟩
    rw [walkCount_eq_length]

/-- Witness for C10: the accepted request (0x1000, 0x500) on the gapped
topology straddles both banks; the two sub-transfer lengths sum to
0x500 and the walk length matches the returned bank count 2. -/
theorem claim_C10_witness :
    sumLens (bankWalkSlices oGapC10) = oGapC10.aSize ∧
    ((bankWalkSlices oGapC10).length : Int) = oGapC10.ret :=
  claim_C10 rawGapTop 0x1000 0x500 oGapC10 (by decide) (by decide)

/-- Claim C8: for a write request sourced from an input file (no fill
pattern), the effective transfer size is `min(requested, file length)`
— in particular it is silently clamped to the file length whenever the
file is shorter than the requested size. -/
theorem claim_C8 (w : WriteInput) (sizeBytes : Nat) (h : w.useFill = false) :
    (prepareWriteBuffer w sizeBytes).2 = min sizeBytes w.fileBytes.length ∧
    (w.fileBytes.length < sizeBytes →
      (prepareWriteBuffer w sizeBytes).2 = w.fileBytes.length) := by
  simp only [prepareWriteBuffer, h, Bool.false_eq_true, if_false]
  constructor
  · split_ifs <;> omega
  · intro hlt
    rw [if_pos hlt]

/-- Witness for C8: a 3-byte input file with a 10-byte request is
clamped to 3 bytes. -/
theorem claim_C8_witness :
    (prepareWriteBuffer ⟨false, 0, [1, 2, 3]⟩ 10).2 =
      min 10 (⟨false, 0, [1, 2, 3]⟩ : WriteInput).fileBytes.length ∧
    ((⟨false, 0, [1, 2, 3]⟩ : WriteInput).fileBytes.length < 10 →
      (prepareWriteBuffer ⟨false, 0, [1, 2, 3]⟩ 10).2 =
        (⟨false, 0, [1, 2, 3]⟩ : WriteInput).fileBytes.length) :=
  claim_C8 ⟨false, 0, [1, 2, 3]⟩ 10 rfl

/-! Helper lemmas for the chunk loops. -/

lemma blockSize_pos : 0 < blockSize := by
  norm_num [blockSize]

lemma chunkList_go {phy count : Nat} (h : count ≠ 0) :
    chunkList phy count = (phy, min count blockSize) ::
      chunkList (phy + min count blockSize) (count - min count blockSize) := by
  conv_lhs => rw [chunkList.eq_def]
  rw [dif_neg h]

lemma runBankT_go (dev : Nat → Nat → Bool) {phy count : Nat} (h : count ≠ 0) :
    runBankT dev phy count =
      if dev phy (min count blockSize) then
        ((phy, min count blockSize) ::
            (runBankT dev (phy + min count blockSize) (count - min count blockSize)).1,
          (runBankT dev (phy + min count blockSize) (count - min count blockSize)).2.1,
          min count blockSize +
            (runBankT dev (phy + min count blockSize) (count - min count blockSize)).2.2)
      else ([(phy, min count blockSize)], false, 0) := by
  conv_lhs => rw [runBankT.eq_def]
  rw [dif_neg h]

lemma runBankT_fail_at (dev : Nat → Nat → Bool) :
    ∀ (k : Nat) (phy count : Nat), 1 ≤ k → (k - 1) * blockSize < count →
      (∀ j, j < k - 1 → dev (phy + j * blockSize) blockSize = true) →
      dev (phy + (k - 1) * blockSize)
        (min (count - (k - 1) * blockSize) blockSize) = false →
      runBankT dev phy count =
        ((chunkList phy count).take k, false, (k - 1) * blockSize) := by
  intro k
  induction k with
  | zero =>
    intro phy count h1 _ _ _
    exact absurd h1 (by omega)
  | succ k' ih =>
    intro phy count h1 h2 h3 h4
    simp only [Nat.add_sub_cancel] at h2 h3 h4 ⊢
    by_cases hk' : k' = 0
    · subst hk'
      have hc : count ≠ 0 := by
        simp only [Nat.zero_mul] at h2
        omega
      simp only [Nat.zero_mul, Nat.add_zero, Nat.sub_zero] at h4
      rw [runBankT_go dev hc, if_neg (by simp [h4]), chunkList_go hc]
      simp
    · have hbpos : 0 < blockSize := blockSize_pos
      have h5 : 1 * blockSize ≤ k' * blockSize :=
        Nat.mul_le_mul_right blockSize (by omega)
      have hB : blockSize ≤ count := by omega
      have hcount : count ≠ 0 := by omega
      have hmin : min count blockSize = blockSize := by omega
      have hstep : (k' - 1) * blockSize + blockSize = k' * blockSize := by
        cases k' with
        | zero => exact absurd rfl hk'
        | succ n =>
          simp only [Nat.succ_sub_one]
          ring
      have hdev0 : dev phy blockSize = true := by
        have := h3 0 (by omega)
        simpa using this
      rw [runBankT_go dev hcount, hmin, if_pos hdev0]
      have ihr := ih (phy + blockSize) (count - blockSize) (by omega) (by omega)
        (fun j hj => by
          have := h3 (j + 1) (by omega)
          have harith : phy + (j + 1) * blockSize = phy + blockSize + j * blockSize := by
            ring
          rwa [harith] at this)
        (by
          have harith : phy + k' * blockSize =
              phy + blockSize + (k' - 1) * blockSize := by omega
          have harith2 : count - k' * blockSize =
              count - blockSize - (k' - 1) * blockSize := by omega
          rwa [harith, harith2] at h4)
      rw [ihr, chunkList_go hcount, hmin, List.take_succ_cons]
      have hbytes : blockSize + (k' - 1) * blockSize = k' * blockSize := by omega
      rw [hbytes]

lemma runOpT_append (dev : Nat → Nat → Bool) :
    ∀ (pre xs : List (MemBank × Nat × Nat)) (tpre : List (Nat × Nat)) (npre : Nat),
      runOpT dev pre = (tpre, true, npre) →
      runOpT dev (pre ++ xs) =
        (tpre ++ (runOpT dev xs).1, (runOpT dev xs).2.1,
          npre + (runOpT dev xs).2.2) := by
  intro pre
  induction pre with
  | nil =>
    intro xs tpre npre h
    simp only [runOpT] at h
    injection h with h1 h23
    injection h23 with _ h3
    subst h1 h3
    simp
  | cons x t ih =>
    rcases x with ⟨b, off, len⟩
    intro xs tpre npre h
    simp only [runOpT, List.cons_append] at h ⊢
    by_cases hb : (runBankT dev (b.m_base_address + off) len).2.1 = true
    · rw [if_pos hb] at h
      rw [if_pos hb]
      injection h with h1 h23
      injection h23 with h2 h3
      have ht : runOpT dev t = ((runOpT dev t).1, true, (runOpT dev t).2.2) := by
        rw [← h2]
      simp only [List.append_eq]
      rw [ih xs _ _ ht]
      subst h1 h3
      simp [Nat.add_assoc]
    · rw [if_neg hb] at h
      exfalso
      have := congrArg (fun q => q.2.1) h
      simp at this

/-- Claim C7: if the k-th chunk of a sub-transfer is the first one the
raw primitive fails on, the executor issues no further chunk operation
anywhere in the operation (the issued trace stops at the failing chunk
and the remaining banks are never touched), the failure propagates to
the caller, and — when the first k-1 chunks are full blocks — the bytes
transferred in that sub-transfer before the failure are (k-1) times the
block size. -/
theorem claim_C7 (dev : Nat → Nat → Bool) (pre rest : List (MemBank × Nat × Nat))
    (tpre : List (Nat × Nat)) (npre : Nat) (b : MemBank) (off len k : Nat)
    (hpre : runOpT dev pre = (tpre, true, npre)) (hk : 1 ≤ k)
    (hlen : (k - 1) * blockSize < len)
    (hsucc : ∀ j, j < k - 1 →
      dev (b.m_base_address + off + j * blockSize) blockSize = true)
    (hfail : dev (b.m_base_address + off + (k - 1) * blockSize)
        (min (len - (k - 1) * blockSize) blockSize) = false) :
    runOpT dev (pre ++ (b, off, len) :: rest) =
      (tpre ++ (chunkList (b.m_base_address + off) len).take k, false,
        npre + (k - 1) * blockSize) := by
  have hbank := runBankT_fail_at dev k (b.m_base_address + off) len hk hlen hsucc hfail
  rw [runOpT_append dev pre _ tpre npre hpre]
  simp only [runOpT]
  rw [hbank]
  simp

/-- Witness for C7: an operation of two sub-transfers whose first bank
transfers 0x20001 bytes at address 0, against a primitive that succeeds
only at address 0: the first 128 KiB chunk succeeds, the second chunk
fails, the trace stops there (the second bank is never touched), and
one full block was transferred. -/
theorem claim_C7_witness :
    runOpT devFailAfterFirst
        [((⟨0, 0, 0⟩ : MemBank), 0, 0x20001), ((⟨0, 0, 0⟩ : MemBank), 0, 5)] =
      ([] ++ (chunkList ((⟨0, 0, 0⟩ : MemBank).m_base_address + 0) 0x20001).take 2,
        false, 0 + (2 - 1) * blockSize) :=
  claim_C7 devFailAfterFirst [] [(⟨0, 0, 0⟩, 0, 5)] [] 0 ⟨0, 0, 0⟩ 0 0x20001 2
    rfl (by norm_num) (by decide) (by decide) (by decide)

/-! Helper lemmas for the device memory model. -/

lemma getD_replicate {n i c d : Nat} (h : i < n) :
    (List.replicate n c).getD i d = c := by
  simp [List.getD, List.getElem?_replicate, h]

lemma pwriteMem_zero (mem : Nat → Nat) (buf : List Nat) (bufOff phy : Nat) :
    pwriteMem mem buf bufOff 0 phy = mem := by
  funext p
  simp only [pwriteMem]
  rw [if_neg (by omega)]

lemma pwriteMem_merge (mem : Nat → Nat) (buf : List Nat) (bufOff incr count phy : Nat)
    (h : incr ≤ count) :
    pwriteMem (pwriteMem mem buf bufOff incr phy) buf (bufOff + incr) (count - incr)
      (phy + incr) = pwriteMem mem buf bufOff count phy := by
  funext p
  simp only [pwriteMem]
  by_cases hA : phy + incr ≤ p ∧ p < phy + incr + (count - incr)
  · rw [if_pos hA, if_pos (show phy ≤ p ∧ p < phy + count by omega)]
    congr 1
    omega
  · rw [if_neg hA]
    by_cases hB : phy ≤ p ∧ p < phy + incr
    · rw [if_pos hB, if_pos (show phy ≤ p ∧ p < phy + count by omega)]
    · rw [if_neg hB, if_neg (show ¬(phy ≤ p ∧ p < phy + count) by omega)]

lemma writeBankMem_pwrite : ∀ (count : Nat) (mem : Nat → Nat) (buf : List Nat)
    (bufOff phy : Nat),
    writeBankMem mem buf bufOff phy count = pwriteMem mem buf bufOff count phy := by
  intro count
  induction count using Nat.strong_induction_on with
  | _ count ih =>
    intro mem buf bufOff phy
    conv_lhs => rw [writeBankMem.eq_def]
    by_cases h : count = 0
    · rw [dif_pos h]
      subst h
      rw [pwriteMem_zero]
    · rw [dif_neg h]
      dsimp only
      rw [ih _ (by have := blockSize_pos; omega)]
      exact pwriteMem_merge mem buf bufOff (min count blockSize) count phy
        (Nat.min_le_left _ _)

lemma readBankMem_eq : ∀ (count : Nat) (mem : Nat → Nat) (phy : Nat),
    readBankMem mem phy count = (List.range count).map fun j => mem (phy + j) := by
  intro count
  induction count using Nat.strong_induction_on with
  | _ count ih =>
    intro mem phy
    conv_lhs => rw [readBankMem.eq_def]
    by_cases h : count = 0
    · rw [dif_pos h]
      subst h
      simp
    · rw [dif_neg h]
      dsimp only
      rw [ih _ (by have := blockSize_pos; omega)]
      have hsplit : count = min count blockSize + (count - min count blockSize) := by
        omega
      conv_rhs => rw [hsplit, List.range_add]
      rw [List.map_append, List.map_map]
      congr 1
      refine List.map_congr_left fun a _ => ?_
      simp only [Function.comp]
      exact congrArg mem (by omega)

lemma coveredBy_cons (x : MemBank × Nat × Nat) (t : List (MemBank × Nat × Nat))
    (p : Nat) : coveredBy (x :: t) p = (sliceCovers x p || coveredBy t p) := by
  simp [coveredBy]

lemma execWriteMem_replicate (n c : Nat) :
    ∀ (slices : List (MemBank × Nat × Nat)) (mem : Nat → Nat) (bufOff : Nat),
      bufOff + sumLens slices ≤ n →
      ∀ p, execWriteMem mem (List.replicate n c) bufOff slices p =
        if coveredBy slices p then c else mem p := by
  intro slices
  induction slices with
  | nil =>
    intro mem bufOff h p
    simp [execWriteMem, coveredBy]
  | cons x t ih =>
    rcases x with ⟨b, off, len⟩
    intro mem bufOff h p
    rw [sumLens_cons] at h
    dsimp only at h
    simp only [execWriteMem]
    rw [ih _ _ (by omega) p, writeBankMem_pwrite, coveredBy_cons]
    by_cases hct : coveredBy t p = true
    · rw [if_pos hct, if_pos (by simp [hct])]
    · rw [if_neg hct]
      simp only [pwriteMem]
      by_cases hc : sliceCovers (b, off, len) p = true
      · have hrange : b.m_base_address + off ≤ p ∧
            p < b.m_base_address + off + len := by
          simpa [sliceCovers] using hc
        rw [if_pos hrange, if_pos (by simp [hc])]
        exact getD_replicate (by omega)
      · have hrange : ¬(b.m_base_address + off ≤ p ∧
            p < b.m_base_address + off + len) := by
          simpa [sliceCovers] using hc
        rw [if_neg hrange, if_neg (by simp [Bool.or_eq_true, hc, hct])]

lemma execReadMem_const (c : Nat) :
    ∀ (slices : List (MemBank × Nat × Nat)) (mem : Nat → Nat),
      (∀ p, coveredBy slices p = true → mem p = c) →
      execReadMem mem slices = List.replicate (sumLens slices) c := by
  intro slices
  induction slices with
  | nil =>
    intro mem _
    simp [execReadMem, sumLens]
  | cons x t ih =>
    rcases x with ⟨b, off, len⟩
    intro mem h
    simp only [execReadMem]
    rw [sumLens_cons]
    dsimp only
    rw [List.replicate_add]
    congr 1
    · rw [readBankMem_eq]
      refine List.eq_replicate_iff.mpr ⟨by simp, ?_⟩
      intro v hv
      obtain ⟨j, hj, rfl⟩ := List.mem_map.mp hv
      rw [List.mem_range] at hj
      apply h
      rw [coveredBy_cons]
      have : sliceCovers (b, off, len) (b.m_base_address + off + j) = true := by
        simp only [sliceCovers, Bool.and_eq_true, decide_eq_true_eq]
        omega
      simp [this]
    · apply ih
      intro p hp
      apply h
      rw [coveredBy_cons]
      simp [hp]

/-- Claim C9: writing N bytes of a fill pattern at a valid address A
through the write executor and then reading N bytes from A through the
read executor returns the same pattern, for any accepted N — including
sizes that cross a bank boundary — with the raw page primitives
modelled as a device memory map. -/
theorem claim_C9 (raw : RawTopology) (A N c : Nat) (mem : Nat → Nat) (o : RWOut)
    (h : readWriteHelper raw A N = some o) (hA : A ≠ 0) (hN : N ≠ 0)
    (herr : o.err = none) :
    execReadMem
      (execWriteMem mem (prepareWriteBuffer ⟨true, c, []⟩ N).1 0 (bankWalkSlices o))
      (bankWalkSlices o) = List.replicate N c := by
  have hbuf : (prepareWriteBuffer ⟨true, c, []⟩ N).1 = List.replicate N c := rfl
  rw [hbuf]
  obtain ⟨s', ho, hcase⟩ := rwh_some h
  rcases hcase with ⟨h0, _⟩ | ⟨_, hs'⟩
  · exact absurd h0 hA
  · subst hs'
    rcases core_err_cases (getDDRBanks raw).2 s' N with ⟨_, he⟩ |
      ⟨_, _, _, _, _, he⟩ | ⟨i, sb, rest, hsea, hle, _⟩
    · rw [ho] at herr
      rw [herr] at he
      cases he
    · rw [ho] at herr
      rw [herr] at he
      cases he
    · have hoeq := core_success hsea hle
      rw [ho, hoeq]
      simp only [bankWalkSlices]
      obtain ⟨hdrop, hpsb, _⟩ := rwSearch_spec hsea
      obtain ⟨hc1, hc2⟩ := containsB_iff.mp hpsb
      rw [hdrop]
      rw [if_neg hN]
      have hsum : sumLens (execSlices s' (sb :: rest) N) = N :=
        execSlices_sumLens s' sb rest N (by omega)
      have hw := execWriteMem_replicate N c (execSlices s' (sb :: rest) N) mem 0
        (by omega)
      rw [execReadMem_const c _ _ fun p hp => by rw [hw p, if_pos hp]]
      rw [hsum]

/-- Witness for C9: on the gapped topology, writing 0x401 bytes of the
fill byte 0xAB at 0x1000 (crossing the bank boundary by exactly one
byte, over the gap) and reading them back returns the pattern. -/
theorem claim_C9_witness :
    execReadMem
      (execWriteMem (fun _ => 0) (prepareWriteBuffer ⟨true, 0xAB, []⟩ 0x401).1 0
        (bankWalkSlices oGapC9))
      (bankWalkSlices oGapC9) = List.replicate 0x401 0xAB :=
  claim_C9 rawGapTop 0x1000 0x401 0xAB (fun _ => 0) oGapC9 (by decide)
    (by decide) (by decide) (by decide)
